import Mathlib

/-!
Verification of the RedGiant event-index core and feature cache.

The development shallowly embeds the code of
`src/src/main/core/impl/base_event_index-inl.h`,
`src/src/main/model/feature_cache.cc` and `src/src/main/main.cc`.
Parts of the repository those files call but whose sources are not in the
staged tree (the `base_index` internals, the expiration table, the feature
space) are modelled from the specification; each such definition says so in
its doc comment.
-/

namespace RedGiant

/-- Document identifiers: 64-bit unsigned in the source, embedded as `Nat`. -/
abbrev DocId := Nat

/-- Term identifiers: 64-bit unsigned in the source, embedded as `Nat`. -/
abbrev TermId := Nat

/-- Term weights are opaque to the event-index logic: the source stores a
float that is only written and read back, never computed with, so the
embedding uses an opaque `Nat` payload. -/
abbrev TermWeight := Nat

/-- Expire times: seconds since epoch, 64-bit signed in the source. -/
abbrev ExpireTime := Int

/-- Key of the expiration table, as constructed at
`base_event_index-inl.h` line 65: `expire_.update({term_id, doc_id}, t)`,
and read back at line 48 as `expire_item.first.term_id` / `.doc_id`. -/
structure ExpireKey where
  term_id : TermId
  doc_id : DocId
deriving DecidableEq

/-- Modelled from the spec: the expiration table (component C2; its class is
not under src/) is a finite map `(TermId, DocId) → ExpireTime` with a
minimum-key view over expire-time. It is embedded as an association list
kept sorted ascending by expire-time with unique keys. -/
abbrev ExpireTable := List (ExpireKey × ExpireTime)

/-- Keys tracked by an expiration table. -/
def expireKeys (tbl : ExpireTable) : List ExpireKey :=
  tbl.map (fun e => e.1)

/-- Invariant of the expiration table: one entry per (term, doc) key. -/
abbrev keysUnique (tbl : ExpireTable) : Prop :=
  (expireKeys tbl).Nodup

/-- Invariant of the embedding: entries sorted ascending by expire-time. -/
abbrev timeSorted (tbl : ExpireTable) : Prop :=
  tbl.Pairwise (fun a b => a.2 ≤ b.2)

/-- Deadline recorded for a key, if the key is tracked. -/
def expireLookup (tbl : ExpireTable) (key : ExpireKey) : Option ExpireTime :=
  (tbl.find? (fun e => e.1 = key)).map (fun e => e.2)

/-- Modelled from the spec: insertion into the deadline-sorted table; the new
entry goes after every entry whose expire-time is not larger. -/
def insertByTime : ExpireTable → ExpireKey → ExpireTime → ExpireTable
  | [], key, t => [(key, t)]
  | e :: rest, key, t =>
    if e.2 ≤ t then e :: insertByTime rest key t else (key, t) :: e :: rest

/-- Modelled from the spec: `update(key, expire_time)` of the expiration
table is idempotent and replaces any prior deadline for that key. Embedded
as erase-then-insert on the sorted association list. -/
def ExpireTable.update (tbl : ExpireTable) (key : ExpireKey) (t : ExpireTime) : ExpireTable :=
  insertByTime (tbl.filter (fun e => e.1 ≠ key)) key t

/-- Modelled from the spec: the loop of `expire_with_limit`. It pops from the
front of the deadline-sorted table while the head is deadline-eligible
(`expire_time ≤ now`) and fewer than `max_batch` entries were popped, or
while the remaining size still exceeds `max_size` (the stress-shedding
capacity policy). `c` counts the pops made so far. -/
def expireLoop (now : ExpireTime) (max_batch max_size : Nat) :
    ExpireTable → Nat → ExpireTable × ExpireTable
  | [], _ => ([], [])
  | e :: rest, c =>
    if (e.2 ≤ now ∧ c < max_batch) ∨ max_size < rest.length + 1 then
      (e :: (expireLoop now max_batch max_size rest (c + 1)).1,
        (expireLoop now max_batch max_size rest (c + 1)).2)
    else ([], e :: rest)

/-- Modelled from the spec: `expire_with_limit(now, max_batch)` pops all keys
whose `expire_time ≤ now`, capped at `max_batch`, in ascending-deadline
order, and may pop additional oldest entries while the table size exceeds
`max_size`. Returns (popped entries, remaining table). -/
def expire_with_limit (tbl : ExpireTable) (now : ExpireTime)
    (max_batch max_size : Nat) : ExpireTable × ExpireTable :=
  expireLoop now max_batch max_size tbl 0

/-- Modelled from the spec: the posting store (component C1; the `base_index`
sources are not under src/) maps each (term, doc) pair to its posting
weight. The per-term list layout is not touched by the claims settled here,
so the store is embedded as one association list keyed by (term, doc). -/
abbrev PostingStore := List ((TermId × DocId) × TermWeight)

/-- Modelled from the spec: `upsert(term, doc, weight)` inserts or replaces. -/
def psUpsert (ps : PostingStore) (term : TermId) (doc : DocId) (w : TermWeight) : PostingStore :=
  if ps.any (fun e => e.1 = (term, doc)) then
    ps.map (fun e => if e.1 = (term, doc) then ((term, doc), w) else e)
  else ps ++ [((term, doc), w)]

/-- Modelled from the spec: `remove(term, doc)` deletes the entry and is a
no-op if the entry is absent. -/
def psRemove (ps : PostingStore) (term : TermId) (doc : DocId) : PostingStore :=
  ps.filter (fun e => e.1 ≠ (term, doc))

/-- Modelled from the spec: `lookup(term)` restricted to one document — the
weight the published store holds for (term, doc), if any. -/
def psLookup (ps : PostingStore) (term : TermId) (doc : DocId) : Option TermWeight :=
  (ps.find? (fun e => e.1 = (term, doc))).map (fun e => e.2)

/-- Modelled from the spec: a changeset edit is UPSERT(term, doc, weight) or
DELETE(term, doc). -/
inductive Edit
  | upsert (doc : DocId) (term : TermId) (w : TermWeight)
  | del (doc : DocId) (term : TermId)
deriving DecidableEq

/-- Modelled from the spec: the changeset is an ordered log of pending edits,
write-only until `apply` drains it. -/
abbrev Changeset := List Edit

/-- Modelled from the spec: `create_update_internal` (declared by the base
index, whose sources are not under src/) records an upsert in the changeset
and returns the number of logical edits staged. -/
def create_update_internal (doc : DocId) (term : TermId) (w : TermWeight)
    (cs : Changeset) : Nat × Changeset :=
  (1, cs ++ [Edit.upsert doc term w])

/-- Modelled from the spec: `remove_internal` (declared by the base index,
whose sources are not under src/) stages a DELETE into the changeset. -/
def remove_internal (doc : DocId) (term : TermId) (cs : Changeset) : Changeset :=
  cs ++ [Edit.del doc term]

/-- Modelled from the spec: effect of one staged edit on the posting store. -/
def applyEdit (ps : PostingStore) : Edit → PostingStore
  | Edit.upsert doc term w => psUpsert ps term doc w
  | Edit.del doc term => psRemove ps term doc

/-- Modelled from the spec: the in-order reduction of a changeset over the
posting store. -/
def applyEdits (cs : Changeset) (ps : PostingStore) : PostingStore :=
  cs.foldl applyEdit ps

/-- Modelled from the spec: `apply_internal` (declared by the base index,
whose sources are not under src/) publishes the changeset into the posting
store in order, clears the changeset, and returns the number of applied
edits. -/
def apply_internal (cs : Changeset) (ps : PostingStore) : Nat × PostingStore × Changeset :=
  (cs.length, applyEdits cs ps, [])

/-- State of `BaseEventIndex` (base_event_index-inl.h): the posting store of
the base index, the staged changeset, the expiration table and `max_size_`. -/
structure BaseEventIndex where
  postings : PostingStore
  changeset : Changeset
  expire : ExpireTable
  max_size : Nat
deriving DecidableEq

namespace BaseEventIndex

/-- Embedding of `BaseEventIndex::update_expire_internal` (lines 63-66):
`expire_.update({term_id, doc_id}, expire_time)`. -/
def update_expire_internal (st : BaseEventIndex) (doc_id : DocId) (term_id : TermId)
    (expire_time : ExpireTime) : BaseEventIndex :=
  { st with expire := ExpireTable.update st.expire ⟨term_id, doc_id⟩ expire_time }

/-- Embedding of `BaseEventIndex::update` (lines 22-27): refresh the expire
entry, then stage the upsert into the changeset; returns the edit count. -/
def update (st : BaseEventIndex) (doc_id : DocId) (term_id : TermId)
    (w : TermWeight) (expire_time : ExpireTime) : Nat × BaseEventIndex :=
  let st1 := update_expire_internal st doc_id term_id expire_time
  let r := create_update_internal doc_id term_id w st1.changeset
  (r.1, { st1 with changeset := r.2 })

/-- `EventTuple` as consumed by `batch_update`:
(doc_id, term_id, weight, expire_time), matching the `std::get` indices at
lines 34-35. -/
abbrev EventTuple := DocId × TermId × TermWeight × ExpireTime

/-- Embedding of `BaseEventIndex::batch_update` (lines 29-38): one
`update_expire_internal` plus `create_update_internal` per tuple in batch
order, accumulating the returned edit counts. -/
def batch_update (st : BaseEventIndex) (batch : List EventTuple) : Nat × BaseEventIndex :=
  batch.foldl
    (fun acc tuple =>
      let st1 := update_expire_internal acc.2 tuple.1 tuple.2.1 tuple.2.2.2
      let r := create_update_internal tuple.1 tuple.2.1 tuple.2.2.1 st1.changeset
      (acc.1 + r.1, { st1 with changeset := r.2 }))
    (0, st)

/-- Embedding of `BaseEventIndex::apply` (lines 40-52): pop expired keys with
`expire_with_limit` (both of its limits are `max_size_`, line 45), stage one
DELETE per popped key via `remove_internal` (lines 47-49), then publish and
clear the changeset via `apply_internal` (line 50); returns
(applied_count, expired_count). -/
def apply (st : BaseEventIndex) (expire_time : ExpireTime) :
    (Nat × Nat) × BaseEventIndex :=
  let results := expire_with_limit st.expire expire_time st.max_size st.max_size
  let ret_expire := results.1.length
  let cs1 := results.1.foldl
    (fun cs item => remove_internal item.1.doc_id item.1.term_id cs) st.changeset
  let r := apply_internal cs1 st.postings
  ((r.1, ret_expire),
    { st with postings := r.2.1, changeset := r.2.2, expire := results.2 })

/-- Reader-visible lookup: queries read only the published posting store. -/
def lookup (st : BaseEventIndex) (term : TermId) (doc : DocId) : Option TermWeight :=
  psLookup st.postings term doc

/-- Embedding of `BaseEventIndex::get_expire_table_size` (lines 16-20). -/
def get_expire_table_size (st : BaseEventIndex) : Nat :=
  st.expire.length

/-- Records written by `dump`: a posting-store record or an expiration
record. -/
inductive DumpRecord
  | posting (term : TermId) (doc : DocId) (w : TermWeight)
  | expireEntry (key : ExpireKey) (t : ExpireTime)
deriving DecidableEq

/-- Modelled from the spec: `dump_internal` of the base index (not under
src/) writes the posting-store (C1) section. -/
def dump_internal (ps : PostingStore) : List DumpRecord :=
  ps.map (fun e => DumpRecord.posting e.1.1 e.1.2 e.2)

/-- Modelled from the spec: the expiration table's `dump` writes the
expiration (C2) section. -/
def expireDump (tbl : ExpireTable) : List DumpRecord :=
  tbl.map (fun e => DumpRecord.expireEntry e.1 e.2)

/-- Embedding of `BaseEventIndex::dump` (lines 54-61): `dump_internal(dumper)`
followed by `expire_.dump(dumper)`. -/
def dump (st : BaseEventIndex) : List DumpRecord :=
  dump_internal st.postings ++ expireDump st.expire

end BaseEventIndex

/-- Observable actions of a `BaseEventIndex` method body, used for the
lock-discipline claim: acquiring the changeset mutex, writing the posting
(C1) section, writing the expiration (C2) section, reading the expire-table
size. -/
inductive MethodStep
  | lock_changeset
  | write_postings_section
  | write_expire_section
  | read_expire_size
deriving DecidableEq

/-- Step trace of `BaseEventIndex::dump` (lines 54-61): the body calls
`dump_internal` then `expire_.dump` and constructs no `unique_lock` on
`changeset_mutex_`. -/
def dump_steps : List MethodStep :=
  [MethodStep.write_postings_section, MethodStep.write_expire_section]

/-- Step trace of `BaseEventIndex::get_expire_table_size` (lines 16-20): the
body locks `changeset_mutex_` first, then reads `expire_.size()`. -/
def get_expire_table_size_steps : List MethodStep :=
  [MethodStep.lock_changeset, MethodStep.read_expire_size]

/-- A writer-side call with no intervening `apply`: a single `update` or one
`batch_update`. -/
inductive WriteOp
  | upd (doc : DocId) (term : TermId) (w : TermWeight) (e : ExpireTime)
  | batch (b : List BaseEventIndex.EventTuple)

/-- Run a sequence of `update` / `batch_update` calls, discarding the
returned edit counts. -/
def runWrites (st : BaseEventIndex) : List WriteOp → BaseEventIndex
  | [] => st
  | WriteOp.upd d t w e :: rest => runWrites (st.update d t w e).2 rest
  | WriteOp.batch b :: rest => runWrites (st.batch_update b).2 rest

/-- Outcome of the restoring `DocumentIndexManager` constructor (its sources
are not under src/): either a restored index or the `std::ios_base::failure`
that `server_main` catches. -/
inductive RestoreOutcome
  | ok (restored : BaseEventIndex)
  | ioFailure

/-- Modelled from the spec: the non-restoring `DocumentIndexManager`
constructor (not under src/) builds an empty index. -/
def emptyIndex (max_size : Nat) : BaseEventIndex :=
  { postings := [], changeset := [], expire := [], max_size := max_size }

/-- Embedding of the restore attempt in `server_main` (main.cc lines
179-189): when `restore_on_startup` is set, try the restoring constructor
and swallow `std::ios_base::failure`, leaving the index unset; otherwise no
attempt is made. -/
def attempt_restore (restore_on_startup : Bool) (outcome : RestoreOutcome) :
    Option BaseEventIndex :=
  if restore_on_startup then
    match outcome with
    | RestoreOutcome.ok restored => some restored
    | RestoreOutcome.ioFailure => none
  else none

/-- Embedding of the index set-up in `server_main` (main.cc lines 179-195):
the restore attempt, then the `if (!index)` fallback to an empty index;
startup then continues with the returned index. -/
def setup_index (restore_on_startup : Bool) (max_size : Nat)
    (outcome : RestoreOutcome) : BaseEventIndex :=
  match attempt_restore restore_on_startup outcome with
  | some idx => idx
  | none => emptyIndex max_size

/-- Feature identifiers: 64-bit unsigned in the source, embedded as `Nat`. -/
abbrev FeatureId := Nat

/-- Modelled from the spec: `FeatureSpace` (model/feature_space.h, not under
src/) as the cache uses it — `calculate_feature_id` maps a feature key to an
id. -/
structure FeatureSpace where
  calculate_feature_id : String → FeatureId

/-- Modelled from the spec: `FeatureSpace::kInvalidId`, the distinguished
invalid feature id. The cache only compares ids against it, so its concrete
value is immaterial; 0 is used here. -/
def kInvalidId : FeatureId := 0

/-- A `Feature` as created by the cache (feature_cache.cc line 34): the key
and the computed id. -/
structure Feature where
  key : String
  id : FeatureId
deriving DecidableEq

/-- State of `FeatureCache`: the registered spaces (`spaces_`, name → space)
and the cached features (`features_`, id → feature). -/
structure FeatureCache where
  spaces : List (String × FeatureSpace)
  features : List (FeatureId × Feature)

/-- Embedding of `FeatureCache::create_or_get_feature` taking a space handle
(feature_cache.cc lines 22-39): an invalid id fails and changes nothing;
otherwise return the cached feature for the id, or create, cache and return
a new one. -/
def create_or_get_feature_sp (c : FeatureCache) (feature_key : String)
    (space : FeatureSpace) : Option Feature × FeatureCache :=
  let id := space.calculate_feature_id feature_key
  if id = kInvalidId then (none, c)
  else
    match c.features.find? (fun p => p.1 = id) with
    | some p => (some p.2, c)
    | none =>
      let feature : Feature := { key := feature_key, id := id }
      (some feature, { c with features := c.features ++ [(id, feature)] })

/-- Embedding of `FeatureCache::create_or_get_feature` taking a space name
(feature_cache.cc lines 11-20): an unregistered name fails and changes
nothing; otherwise delegate to the handle overload. -/
def create_or_get_feature_name (c : FeatureCache) (feature_key space_name : String) :
    Option Feature × FeatureCache :=
  match c.spaces.find? (fun p => p.1 = space_name) with
  | none => (none, c)
  | some p => create_or_get_feature_sp c feature_key p.2

/-- Concrete expiration table used to witness the expire_with_limit claim. -/
def specWitnessTable : ExpireTable :=
  [(⟨1, 1⟩, 1), (⟨1, 2⟩, 5), (⟨2, 3⟩, 9)]

/-- Concrete event-index state used to witness the expire-refresh claim. -/
def witnessIndex : BaseEventIndex :=
  { postings := [], changeset := [],
    expire := [(⟨2, 1⟩, 5), (⟨3, 3⟩, 7)], max_size := 10 }

/-- Concrete feature space used to witness the feature-cache claims. -/
def witnessSpace : FeatureSpace :=
  ⟨fun k => if k = "111" then 42 else 0⟩

/-- Concrete cache used to witness the feature-cache claims. -/
def witnessCache : FeatureCache :=
  ⟨[("A", witnessSpace)], []⟩

/-- C4: batch_update has the same effect on the changeset and the expiration
table as calling update once per tuple in batch order, and returns the sum
of the per-tuple update return values. -/
theorem batch_update_refines_update (st : BaseEventIndex)
    (batch : List BaseEventIndex.EventTuple) :
    BaseEventIndex.batch_update st batch =
      batch.foldl
        (fun acc tuple =>
          (acc.1 + (BaseEventIndex.update acc.2 tuple.1 tuple.2.1 tuple.2.2.1 tuple.2.2.2).1,
            (BaseEventIndex.update acc.2 tuple.1 tuple.2.1 tuple.2.2.1 tuple.2.2.2).2))
        (0, st) :=
  rfl

/-- Staging the expiration DELETEs (the loop at lines 47-49) appends one
DELETE per popped key to the end of the pending changeset, in pop order. -/
theorem stage_deletes_eq (results : ExpireTable) (cs : Changeset) :
    results.foldl (fun cs item => remove_internal item.1.doc_id item.1.term_id cs) cs
      = cs ++ results.map (fun item => Edit.del item.1.doc_id item.1.term_id) := by
  induction results generalizing cs with
  | nil => simp
  | cons r rest ih =>
    rw [List.foldl_cons, ih]
    simp [remove_internal]

/-- C1: apply(now) pops the eligible keys from the expiration table limited
by max_size, stages one DELETE per popped key behind the pending changeset,
publishes that changeset into the posting store, leaves the changeset
cleared, and returns the pair whose second component is the number of popped
keys. -/
theorem apply_step_order (st : BaseEventIndex) (now : ExpireTime) :
    (BaseEventIndex.apply st now).2.postings =
      applyEdits
        (st.changeset ++ (expire_with_limit st.expire now st.max_size st.max_size).1.map
          (fun item => Edit.del item.1.doc_id item.1.term_id))
        st.postings
  ∧ (BaseEventIndex.apply st now).2.changeset = []
  ∧ (BaseEventIndex.apply st now).2.expire =
      (expire_with_limit st.expire now st.max_size st.max_size).2
  ∧ (BaseEventIndex.apply st now).1.2 =
      (expire_with_limit st.expire now st.max_size st.max_size).1.length := by
  refine ⟨?_, rfl, rfl, rfl⟩
  show applyEdits
      ((expire_with_limit st.expire now st.max_size st.max_size).1.foldl
        (fun cs item => remove_internal item.1.doc_id item.1.term_id cs) st.changeset)
      st.postings = _
  rw [stage_deletes_eq]

/-- The state component of a batch_update fold never touches the posting
store, whatever the accumulator. -/
theorem batch_fold_postings (b : List BaseEventIndex.EventTuple) :
    ∀ acc : Nat × BaseEventIndex,
      (List.foldl
        (fun acc tuple =>
          let st1 := BaseEventIndex.update_expire_internal acc.2 tuple.1 tuple.2.1 tuple.2.2.2
          let r := create_update_internal tuple.1 tuple.2.1 tuple.2.2.1 st1.changeset
          (acc.1 + r.1, { st1 with changeset := r.2 })) acc b).2.postings
      = acc.2.postings := by
  induction b with
  | nil => intro acc; rfl
  | cons tup rest ih => intro acc; exact (ih _).trans rfl

/-- C2: update and batch_update write only the changeset and the expiration
table: across any sequence of such calls with no intervening apply, the
reader-visible posting store — and hence every lookup — is unchanged. -/
theorem writes_accumulate_invisibly (st : BaseEventIndex) (ops : List WriteOp) :
    (runWrites st ops).postings = st.postings
  ∧ ∀ term doc, BaseEventIndex.lookup (runWrites st ops) term doc =
      BaseEventIndex.lookup st term doc := by
  have hp : ∀ (ops : List WriteOp) (st : BaseEventIndex),
      (runWrites st ops).postings = st.postings := by
    intro ops
    induction ops with
    | nil => intro st; rfl
    | cons op rest ih =>
      intro st
      cases op with
      | upd d t w e => exact (ih _).trans rfl
      | batch b => exact (ih _).trans (batch_fold_postings b (0, st))
  refine ⟨hp ops st, ?_⟩
  intro term doc
  unfold BaseEventIndex.lookup
  rw [hp ops st]

/-- C7 counterexample: the body of BaseEventIndex::dump (lines 54-61)
acquires no lock on the changeset mutex — its step trace holds no lock
acquisition. -/
theorem dump_does_not_lock : MethodStep.lock_changeset ∉ dump_steps := by
  decide

/-- C7 amended: dump writes the posting-store (C1) section before the
expiration-table (C2) section in a deterministic order, but does not itself
acquire the changeset mutex: its trace has no lock step, unlike
get_expire_table_size, which locks first. Quiescing writers is the caller's
responsibility. -/
theorem dump_order (st : BaseEventIndex) :
    BaseEventIndex.dump st =
      BaseEventIndex.dump_internal st.postings ++ BaseEventIndex.expireDump st.expire
  ∧ dump_steps = [MethodStep.write_postings_section, MethodStep.write_expire_section]
  ∧ MethodStep.lock_changeset ∉ dump_steps
  ∧ MethodStep.lock_changeset ∈ get_expire_table_size_steps :=
  ⟨rfl, rfl, by decide, by decide⟩

/-- A lookup misses exactly when the underlying search misses. -/
theorem psLookup_eq_none_iff (ps : PostingStore) (term : TermId) (doc : DocId) :
    psLookup ps term doc = none ↔ ps.find? (fun e => e.1 = (term, doc)) = none := by
  rw [psLookup, Option.map_eq_none']

/-- Removing a key from the posting store leaves no entry for it. -/
theorem psLookup_remove_self (ps : PostingStore) (term : TermId) (doc : DocId) :
    psLookup (psRemove ps term doc) term doc = none := by
  rw [psLookup_eq_none_iff, List.find?_eq_none]
  intro x hx
  have h2 := (List.mem_filter.mp hx).2
  simp at h2 ⊢
  exact h2

/-- Removals never create an entry: an absent key stays absent. -/
theorem psLookup_remove_preserves_none (ps : PostingStore) (term : TermId) (doc : DocId)
    (term2 : TermId) (doc2 : DocId) (h : psLookup ps term doc = none) :
    psLookup (psRemove ps term2 doc2) term doc = none := by
  rw [psLookup_eq_none_iff, List.find?_eq_none] at h ⊢
  exact fun x hx => h x (List.mem_filter.mp hx).1

/-- Applying a run of DELETE edits never creates an entry. -/
theorem applyEdits_dels_preserves_none (L : List ExpireKey) (ps : PostingStore)
    (term : TermId) (doc : DocId) (h : psLookup ps term doc = none) :
    psLookup (applyEdits (L.map (fun k => Edit.del k.doc_id k.term_id)) ps) term doc = none := by
  induction L generalizing ps with
  | nil => exact h
  | cons k rest ih =>
    simp only [List.map_cons, applyEdits, List.foldl_cons]
    exact ih _ (psLookup_remove_preserves_none _ _ _ _ _ h)

/-- After applying a run of DELETE edits that contains a key, that key is
absent from the posting store. -/
theorem applyEdits_dels_absent (L : List ExpireKey) (ps : PostingStore)
    (term : TermId) (doc : DocId) (h : (⟨term, doc⟩ : ExpireKey) ∈ L) :
    psLookup (applyEdits (L.map (fun k => Edit.del k.doc_id k.term_id)) ps) term doc = none := by
  induction L generalizing ps with
  | nil => cases h
  | cons k rest ih =>
    simp only [List.map_cons, applyEdits, List.foldl_cons]
    rcases List.mem_cons.mp h with hk | hk
    · apply applyEdits_dels_preserves_none
      have he : applyEdit ps (Edit.del k.doc_id k.term_id) = psRemove ps term doc := by
        rw [← hk]
        rfl
      rw [he]
      exact psLookup_remove_self ps term doc
    · exact ih _ hk

/-- C3 counterexample: starting from the empty index with max_size 10, stage
update(doc 1, term 2, weight 5, expire 3); apply(3) pops the recorded
deadline 3 for (term 2, doc 1), yet afterwards the posting is absent — the
staged upsert did not win over the expiration delete. -/
theorem reinsert_wins_fails :
    BaseEventIndex.lookup
        (BaseEventIndex.apply
          (BaseEventIndex.update
            { postings := [], changeset := [], expire := [], max_size := 10 }
            1 2 5 3).2 3).2 2 1 ≠ some 5
  ∧ BaseEventIndex.lookup
        (BaseEventIndex.apply
          (BaseEventIndex.update
            { postings := [], changeset := [], expire := [], max_size := 10 }
            1 2 5 3).2 3).2 2 1 = none := by
  refine ⟨?_, ?_⟩ <;> decide

/-- C3 amended: when the expiration entry for (term, doc) is popped by
apply(now), the staged DELETE follows every pending changeset edit — the
upserts were staged earlier, the delete is appended during the apply — so
after the apply the (term, doc) posting is absent: the delete wins, not the
upsert. -/
theorem expire_delete_wins (st : BaseEventIndex) (now : ExpireTime)
    (term : TermId) (doc : DocId)
    (h : (⟨term, doc⟩ : ExpireKey) ∈
      expireKeys (expire_with_limit st.expire now st.max_size st.max_size).1) :
    BaseEventIndex.lookup (BaseEventIndex.apply st now).2 term doc = none := by
  have h1 : (BaseEventIndex.apply st now).2.postings =
      applyEdits
        (st.changeset ++ (expire_with_limit st.expire now st.max_size st.max_size).1.map
          (fun item => Edit.del item.1.doc_id item.1.term_id))
        st.postings := by
    show applyEdits
        ((expire_with_limit st.expire now st.max_size st.max_size).1.foldl
          (fun cs item => remove_internal item.1.doc_id item.1.term_id cs) st.changeset)
        st.postings = _
    rw [stage_deletes_eq]
  have h2 : (expire_with_limit st.expire now st.max_size st.max_size).1.map
        (fun item => Edit.del item.1.doc_id item.1.term_id)
      = (expireKeys (expire_with_limit st.expire now st.max_size st.max_size).1).map
          (fun k => Edit.del k.doc_id k.term_id) := by
    simp [expireKeys, List.map_map, Function.comp]
  unfold BaseEventIndex.lookup
  rw [h1, h2]
  unfold applyEdits
  rw [List.foldl_append]
  exact applyEdits_dels_absent _ _ term doc h

/-- C3 amended witness: the counterexample's concrete scenario satisfies the
hypothesis of the amended theorem and its conclusion. -/
theorem expire_delete_wins_witness :
    ((⟨2, 1⟩ : ExpireKey) ∈
      expireKeys (expire_with_limit
        (BaseEventIndex.update
          { postings := [], changeset := [], expire := [], max_size := 10 }
          1 2 5 3).2.expire 3
        (BaseEventIndex.update
          { postings := [], changeset := [], expire := [], max_size := 10 }
          1 2 5 3).2.max_size
        (BaseEventIndex.update
          { postings := [], changeset := [], expire := [], max_size := 10 }
          1 2 5 3).2.max_size).1)
  ∧ BaseEventIndex.lookup
      (BaseEventIndex.apply
        (BaseEventIndex.update
          { postings := [], changeset := [], expire := [], max_size := 10 }
          1 2 5 3).2 3).2 2 1 = none :=
  ⟨by decide, expire_delete_wins _ 3 2 1 (by decide)⟩

/-- The expire loop splits the table: popped entries followed by the rest
reassemble the input. -/
theorem expireLoop_append (now : ExpireTime) (mb ms : Nat) (l : ExpireTable) :
    ∀ c, (expireLoop now mb ms l c).1 ++ (expireLoop now mb ms l c).2 = l := by
  induction l with
  | nil => intro c; rfl
  | cons e rest ih =>
    intro c
    by_cases hcond : (e.2 ≤ now ∧ c < mb) ∨ ms < rest.length + 1
    · simp only [expireLoop, if_pos hcond, List.cons_append, List.cons.injEq, true_and]
      exact ih (c + 1)
    · simp only [expireLoop, if_neg hcond, List.nil_append]

/-- The expire loop never leaves more than max_size entries behind. -/
theorem expireLoop_rest_le (now : ExpireTime) (mb ms : Nat) (l : ExpireTable) :
    ∀ c, (expireLoop now mb ms l c).2.length ≤ ms := by
  induction l with
  | nil => intro c; simp [expireLoop]
  | cons e rest ih =>
    intro c
    by_cases hcond : (e.2 ≤ now ∧ c < mb) ∨ ms < rest.length + 1
    · simp only [expireLoop, if_pos hcond]
      exact ih (c + 1)
    · simp only [expireLoop, if_neg hcond]
      push_neg at hcond
      simpa using hcond.2

/-- Every entry the expire loop leaves behind is either past the deadline
cutoff or was spared only because the pop cap was reached. -/
theorem expireLoop_rest_not_eligible (now : ExpireTime) (mb ms : Nat) (l : ExpireTable)
    (hs : timeSorted l) :
    ∀ c, ∀ x ∈ (expireLoop now mb ms l c).2,
      now < x.2 ∨ mb ≤ c + (expireLoop now mb ms l c).1.length := by
  induction l with
  | nil => intro c x hx; simp [expireLoop] at hx
  | cons e rest ih =>
    intro c x hx
    obtain ⟨hs1, hs2⟩ := List.pairwise_cons.mp hs
    by_cases hcond : (e.2 ≤ now ∧ c < mb) ∨ ms < rest.length + 1
    · simp only [expireLoop, if_pos hcond] at hx ⊢
      rcases ih hs2 (c + 1) x hx with h | h
      · exact Or.inl h
      · right
        simp only [List.length_cons]
        omega
    · simp only [expireLoop, if_neg hcond] at hx ⊢
      rcases Nat.lt_or_ge c mb with hc | hc
      · left
        have he : now < e.2 := by
          by_contra hn
          push_neg at hn
          exact hcond (Or.inl ⟨hn, hc⟩)
        rcases List.mem_cons.mp hx with hxe | hxr
        · rw [hxe]; exact he
        · exact lt_of_lt_of_le he (hs1 x hxr)
      · right
        simpa using hc

/-- When the table fits within max_size, the capacity policy never fires:
every popped entry is deadline-eligible and the pops respect the cap. -/
theorem expireLoop_no_pressure (now : ExpireTime) (mb ms : Nat) :
    ∀ l : ExpireTable, l.length ≤ ms →
      ∀ c, (∀ p ∈ (expireLoop now mb ms l c).1, p.2 ≤ now)
        ∧ ((expireLoop now mb ms l c).1 = [] ∨ c + (expireLoop now mb ms l c).1.length ≤ mb) := by
  intro l
  induction l with
  | nil => intro _ c; simp [expireLoop]
  | cons e rest ih =>
    intro hlen c
    have hrest : rest.length ≤ ms := by
      simp only [List.length_cons] at hlen
      omega
    have hnp : ¬ ms < rest.length + 1 := by
      simp only [List.length_cons] at hlen
      omega
    by_cases hel : e.2 ≤ now ∧ c < mb
    · have hcond : (e.2 ≤ now ∧ c < mb) ∨ ms < rest.length + 1 := Or.inl hel
      simp only [expireLoop, if_pos hcond]
      obtain ⟨ihp, ihc⟩ := ih hrest (c + 1)
      constructor
      · intro p hp
        rcases List.mem_cons.mp hp with hpe | hpr
        · rw [hpe]; exact hel.1
        · exact ihp p hpr
      · right
        simp only [List.length_cons]
        rcases ihc with hnil | hle
        · rw [hnil]
          simpa using hel.2
        · omega
    · have hcond : ¬ ((e.2 ≤ now ∧ c < mb) ∨ ms < rest.length + 1) := by
        intro hor
        rcases hor with h1 | h2
        · exact hel h1
        · exact hnp h2
      simp [expireLoop, if_neg hcond]

/-- C5: on a deadline-sorted table, expire_with_limit splits off a prefix:
the pops come back in ascending-deadline order and no entry with a strictly
larger expire-time is evicted ahead of one with a strictly smaller one;
every entry left behind is past the cutoff unless the max_batch cap was hit;
at most max_size entries remain; and when the table already fits within
max_size the pops are exactly deadline-eligible keys, capped at max_batch. -/
theorem expire_with_limit_spec (tbl : ExpireTable) (now : ExpireTime)
    (max_batch max_size : Nat) (hs : timeSorted tbl) :
    (expire_with_limit tbl now max_batch max_size).1
        ++ (expire_with_limit tbl now max_batch max_size).2 = tbl
  ∧ timeSorted (expire_with_limit tbl now max_batch max_size).1
  ∧ (∀ x ∈ (expire_with_limit tbl now max_batch max_size).2,
      now < x.2 ∨ max_batch ≤ (expire_with_limit tbl now max_batch max_size).1.length)
  ∧ (expire_with_limit tbl now max_batch max_size).2.length ≤ max_size
  ∧ (∀ p ∈ (expire_with_limit tbl now max_batch max_size).1,
      ∀ r ∈ (expire_with_limit tbl now max_batch max_size).2, p.2 ≤ r.2)
  ∧ (tbl.length ≤ max_size →
      (∀ p ∈ (expire_with_limit tbl now max_batch max_size).1, p.2 ≤ now)
      ∧ (expire_with_limit tbl now max_batch max_size).1.length ≤ max_batch) := by
  have happ : (expire_with_limit tbl now max_batch max_size).1
      ++ (expire_with_limit tbl now max_batch max_size).2 = tbl :=
    expireLoop_append now max_batch max_size tbl 0
  have hsorted2 : List.Pairwise (fun a b => a.2 ≤ b.2)
      ((expire_with_limit tbl now max_batch max_size).1
        ++ (expire_with_limit tbl now max_batch max_size).2) := by
    rw [happ]
    exact hs
  obtain ⟨hpop, hrest, hcross⟩ := List.pairwise_append.mp hsorted2
  refine ⟨happ, hpop, ?_, expireLoop_rest_le now max_batch max_size tbl 0, hcross, ?_⟩
  · intro x hx
    simpa using expireLoop_rest_not_eligible now max_batch max_size tbl hs 0 x hx
  · intro hlen
    obtain ⟨hp, hc⟩ := expireLoop_no_pressure now max_batch max_size tbl hlen 0
    refine ⟨hp, ?_⟩
    rcases hc with hnil | hle
    · rw [expire_with_limit, hnil]
      simp
    · simpa using hle

/-- C5 witness: a concrete sorted table under no capacity pressure satisfies
the hypothesis and the conclusion of the expire_with_limit theorem. -/
theorem expire_with_limit_spec_witness :
    timeSorted specWitnessTable
  ∧ ((expire_with_limit specWitnessTable 6 4 10).1
        ++ (expire_with_limit specWitnessTable 6 4 10).2 = specWitnessTable
    ∧ timeSorted (expire_with_limit specWitnessTable 6 4 10).1
    ∧ (∀ x ∈ (expire_with_limit specWitnessTable 6 4 10).2,
        6 < x.2 ∨ 4 ≤ (expire_with_limit specWitnessTable 6 4 10).1.length)
    ∧ (expire_with_limit specWitnessTable 6 4 10).2.length ≤ 10
    ∧ (∀ p ∈ (expire_with_limit specWitnessTable 6 4 10).1,
        ∀ r ∈ (expire_with_limit specWitnessTable 6 4 10).2, p.2 ≤ r.2)
    ∧ (specWitnessTable.length ≤ 10 →
        (∀ p ∈ (expire_with_limit specWitnessTable 6 4 10).1, p.2 ≤ 6)
        ∧ (expire_with_limit specWitnessTable 6 4 10).1.length ≤ 4)) :=
  ⟨by decide, expire_with_limit_spec specWitnessTable 6 4 10 (by decide)⟩

/-- Inserting by deadline grows the table by exactly one entry. -/
theorem insertByTime_length (l : ExpireTable) (key : ExpireKey) (t : ExpireTime) :
    (insertByTime l key t).length = l.length + 1 := by
  induction l with
  | nil => rfl
  | cons e rest ih =>
    by_cases h : e.2 ≤ t
    · simp only [insertByTime, if_pos h, List.length_cons, ih]
    · simp only [insertByTime, if_neg h, List.length_cons]

/-- Inserting by deadline is a permutation of consing the new entry. -/
theorem insertByTime_perm (l : ExpireTable) (key : ExpireKey) (t : ExpireTime) :
    List.Perm (insertByTime l key t) ((key, t) :: l) := by
  induction l with
  | nil => exact List.Perm.refl _
  | cons e rest ih =>
    by_cases h : e.2 ≤ t
    · simp only [insertByTime, if_pos h]
      exact (ih.cons e).trans (List.Perm.swap (key, t) e rest)
    · simp only [insertByTime, if_neg h]
      exact List.Perm.refl _

/-- The expiration-table update keeps the one-entry-per-key invariant. -/
theorem expire_update_keys_unique (tbl : ExpireTable) (key : ExpireKey) (t : ExpireTime)
    (hU : keysUnique tbl) : keysUnique (ExpireTable.update tbl key t) := by
  have hkeys : List.Perm (List.map (fun e => e.1) (ExpireTable.update tbl key t))
      (key :: List.map (fun e => e.1) (tbl.filter (fun e => e.1 ≠ key))) :=
    (insertByTime_perm (tbl.filter (fun e => e.1 ≠ key)) key t).map (fun e => e.1)
  show (expireKeys (ExpireTable.update tbl key t)).Nodup
  rw [expireKeys]
  refine hkeys.nodup_iff.mpr (List.nodup_cons.mpr ⟨?_, ?_⟩)
  · intro hmem
    obtain ⟨x, hx, hx1⟩ := List.mem_map.mp hmem
    have h2 := (List.mem_filter.mp hx).2
    simp only [decide_eq_true_eq] at h2
    exact h2 hx1
  · have hsub : List.Sublist (List.map (fun e => e.1) (tbl.filter (fun e => e.1 ≠ key)))
        (List.map (fun e => e.1) tbl) :=
      List.Sublist.map (fun e => e.1) (List.filter_sublist tbl)
    exact List.Nodup.sublist hsub hU

/-- Dropping a tracked key from a unique-keyed table removes exactly one
entry. -/
theorem filtered_length_of_mem (tbl : ExpireTable) (key : ExpireKey)
    (hU : keysUnique tbl) (hk : key ∈ expireKeys tbl) :
    (tbl.filter (fun e => e.1 ≠ key)).length + 1 = tbl.length := by
  induction tbl with
  | nil => cases hk
  | cons e rest ih =>
    have hU2 : (e.1 :: expireKeys rest).Nodup := by
      rw [keysUnique, expireKeys, List.map_cons] at hU
      exact hU
    obtain ⟨hnot, hnodup⟩ := List.nodup_cons.mp hU2
    rw [expireKeys, List.map_cons] at hk
    by_cases he : e.1 = key
    · have hfr : rest.filter (fun x => x.1 ≠ key) = rest := by
        apply List.filter_eq_self.mpr
        intro x hx
        simp only [decide_eq_true_eq]
        intro hxk
        apply hnot
        rw [he, ← hxk]
        exact List.mem_map_of_mem (fun y => y.1) hx
      rw [List.filter_cons, if_neg (by simp [he]), hfr]
      simp
    · have hk2 : key ∈ expireKeys rest := by
        rcases List.mem_cons.mp hk with h1 | h1
        · exact absurd h1.symm he
        · exact h1
      rw [List.filter_cons, if_pos (by simp [he])]
      have hih := ih hnodup hk2
      simp only [List.length_cons]
      omega

/-- Looking up a key absent from the base list finds the inserted entry. -/
theorem expireLookup_insertByTime (l : ExpireTable) (key : ExpireKey) (t : ExpireTime)
    (h : ∀ x ∈ l, x.1 ≠ key) :
    expireLookup (insertByTime l key t) key = some t := by
  induction l with
  | nil => simp [insertByTime, expireLookup, List.find?]
  | cons e rest ih =>
    have he : e.1 ≠ key := h e (List.mem_cons_self e rest)
    by_cases h2 : e.2 ≤ t
    · simp only [insertByTime, if_pos h2]
      rw [expireLookup, List.find?_cons_of_neg]
      · exact ih (fun x hx => h x (List.mem_cons_of_mem e hx))
      · simpa using he
    · simp only [insertByTime, if_neg h2]
      rw [expireLookup, List.find?_cons_of_pos]
      · rfl
      · simp

/-- The update stores the new deadline for the key. -/
theorem expireLookup_update (tbl : ExpireTable) (key : ExpireKey) (t : ExpireTime) :
    expireLookup (ExpireTable.update tbl key t) key = some t := by
  apply expireLookup_insertByTime
  intro x hx
  have h2 := (List.mem_filter.mp hx).2
  simpa using h2

/-- Filtering twice by the same predicate filters once. -/
theorem filter_idem {α : Type} (p : α → Bool) (l : List α) :
    (l.filter p).filter p = l.filter p := by
  induction l with
  | nil => rfl
  | cons a rest ih =>
    by_cases h : p a
    · simp [List.filter_cons, h, ih]
    · simp [List.filter_cons, h, ih]

/-- Erasing the inserted key undoes the insertion. -/
theorem filter_insertByTime (l : ExpireTable) (key : ExpireKey) (t : ExpireTime) :
    (insertByTime l key t).filter (fun e => e.1 ≠ key) = l.filter (fun e => e.1 ≠ key) := by
  induction l with
  | nil => simp [insertByTime]
  | cons e rest ih =>
    by_cases h2 : e.2 ≤ t
    · simp only [insertByTime, if_pos h2, List.filter_cons, ih]
    · simp only [insertByTime, if_neg h2, List.filter_cons]
      simp

/-- The expiration-table update is idempotent. -/
theorem expire_update_idem (tbl : ExpireTable) (key : ExpireKey) (t : ExpireTime) :
    ExpireTable.update (ExpireTable.update tbl key t) key t
      = ExpireTable.update tbl key t := by
  rw [ExpireTable.update, ExpireTable.update, filter_insertByTime, filter_idem]

/-- C8: refreshing the deadline of an already-tracked (term, doc) key via
update_expire_internal is a replacement: the table size is unchanged, it
still holds one entry per key, the stored deadline is the new one, and
repeating the same call is idempotent. -/
theorem update_expire_replaces (st : BaseEventIndex) (doc_id : DocId) (term_id : TermId)
    (t : ExpireTime) (hU : keysUnique st.expire)
    (hk : (⟨term_id, doc_id⟩ : ExpireKey) ∈ expireKeys st.expire) :
    (BaseEventIndex.update_expire_internal st doc_id term_id t).expire.length
        = st.expire.length
  ∧ keysUnique (BaseEventIndex.update_expire_internal st doc_id term_id t).expire
  ∧ expireLookup (BaseEventIndex.update_expire_internal st doc_id term_id t).expire
      ⟨term_id, doc_id⟩ = some t
  ∧ BaseEventIndex.update_expire_internal
        (BaseEventIndex.update_expire_internal st doc_id term_id t) doc_id term_id t
      = BaseEventIndex.update_expire_internal st doc_id term_id t := by
  refine ⟨?_, expire_update_keys_unique _ _ _ hU, expireLookup_update _ _ _, ?_⟩
  · show (ExpireTable.update st.expire ⟨term_id, doc_id⟩ t).length = st.expire.length
    rw [ExpireTable.update, insertByTime_length]
    exact filtered_length_of_mem st.expire ⟨term_id, doc_id⟩ hU hk
  · unfold BaseEventIndex.update_expire_internal
    simp [expire_update_idem]

/-- C8 witness: a concrete two-entry table with the key (term 2, doc 1)
tracked satisfies the hypotheses and the conclusion. -/
theorem update_expire_replaces_witness :
    (keysUnique witnessIndex.expire
      ∧ (⟨2, 1⟩ : ExpireKey) ∈ expireKeys witnessIndex.expire)
  ∧ ((BaseEventIndex.update_expire_internal witnessIndex 1 2 9).expire.length
        = witnessIndex.expire.length
    ∧ keysUnique (BaseEventIndex.update_expire_internal witnessIndex 1 2 9).expire
    ∧ expireLookup (BaseEventIndex.update_expire_internal witnessIndex 1 2 9).expire
        ⟨2, 1⟩ = some 9
    ∧ BaseEventIndex.update_expire_internal
          (BaseEventIndex.update_expire_internal witnessIndex 1 2 9) 1 2 9
        = BaseEventIndex.update_expire_internal witnessIndex 1 2 9) :=
  ⟨⟨by decide, by decide⟩,
    update_expire_replaces witnessIndex 1 2 9 (by decide) (by decide)⟩

/-- C6: when restore_on_startup is set and the restore fails with an I/O
failure, server_main falls back to the empty index — never partial state —
and startup continues with that index. -/
theorem restore_failure_falls_back (max_size : Nat) :
    setup_index true max_size RestoreOutcome.ioFailure = emptyIndex max_size
  ∧ (setup_index true max_size RestoreOutcome.ioFailure).postings = []
  ∧ (setup_index true max_size RestoreOutcome.ioFailure).expire = [] :=
  ⟨rfl, rfl, rfl⟩

/-- C9: create_or_get_feature by space name returns no feature exactly when
the name is not registered in the cache or the space computes kInvalidId for
the key; in either failure case the cached feature map is unchanged, and in
every other case a feature is returned. -/
theorem create_or_get_feature_failure (c : FeatureCache) (feature_key space_name : String) :
    ((create_or_get_feature_name c feature_key space_name).1 = none ↔
      c.spaces.find? (fun p => p.1 = space_name) = none
      ∨ (∃ p, c.spaces.find? (fun p => p.1 = space_name) = some p
          ∧ p.2.calculate_feature_id feature_key = kInvalidId))
  ∧ ((create_or_get_feature_name c feature_key space_name).1 = none →
      (create_or_get_feature_name c feature_key space_name).2.features = c.features) := by
  unfold create_or_get_feature_name create_or_get_feature_sp
  cases hf : c.spaces.find? (fun p => p.1 = space_name) with
  | none => simp
  | some p =>
    by_cases hid : p.2.calculate_feature_id feature_key = kInvalidId
    · simp [hid]
    · cases hmem : c.features.find?
        (fun q => q.1 = p.2.calculate_feature_id feature_key) with
      | none => simp [hid, hmem]
      | some q => simp [hid, hmem]

/-- The feature-creating call never touches the registered spaces. -/
theorem create_or_get_feature_sp_spaces (c : FeatureCache) (feature_key : String)
    (space : FeatureSpace) :
    (create_or_get_feature_sp c feature_key space).2.spaces = c.spaces := by
  unfold create_or_get_feature_sp
  by_cases hid : space.calculate_feature_id feature_key = kInvalidId
  · simp [hid]
  · cases hmem : c.features.find?
      (fun q => q.1 = space.calculate_feature_id feature_key) with
    | none => simp [hid, hmem]
    | some q => simp [hid, hmem]

/-- Searching an extended list starts over only after the existing part
missed. -/
theorem find?_append_of_none {α : Type} (l1 l2 : List α) (p : α → Bool)
    (h : l1.find? p = none) : (l1 ++ l2).find? p = l2.find? p := by
  induction l1 with
  | nil => rfl
  | cons a rest ih =>
    have hpa : p a = false := by
      rcases List.find?_eq_none.mp h a (List.mem_cons_self a rest) with h2
      simpa using h2
    have hrest : rest.find? p = none := by
      rw [List.find?_eq_none] at h ⊢
      exact fun x hx => h x (List.mem_cons_of_mem a hx)
    rw [List.cons_append, List.find?_cons_of_neg _ (by simp [hpa]), ih hrest]

/-- C10: create_or_get_feature is idempotent per (key, space): repeating the
call with the same feature key and the same feature space — addressed by the
space handle or by a name bound to that space — returns the same feature and
creates no new map entry. -/
theorem create_or_get_feature_idempotent (c : FeatureCache)
    (feature_key space_name : String) (space : FeatureSpace)
    (h : c.spaces.find? (fun p => p.1 = space_name) = some (space_name, space)) :
    create_or_get_feature_sp (create_or_get_feature_sp c feature_key space).2
        feature_key space
      = create_or_get_feature_sp c feature_key space
  ∧ create_or_get_feature_name (create_or_get_feature_sp c feature_key space).2
        feature_key space_name
      = create_or_get_feature_sp c feature_key space
  ∧ create_or_get_feature_name c feature_key space_name
      = create_or_get_feature_sp c feature_key space := by
  have hrepeat : create_or_get_feature_sp (create_or_get_feature_sp c feature_key space).2
      feature_key space = create_or_get_feature_sp c feature_key space := by
    unfold create_or_get_feature_sp
    by_cases hid : space.calculate_feature_id feature_key = kInvalidId
    · simp [hid]
    · cases hmem : c.features.find?
        (fun q => q.1 = space.calculate_feature_id feature_key) with
      | some q => simp [hid, hmem]
      | none =>
        simp only [hid, if_false, hmem]
        have hfind : ((c.features ++
            [(space.calculate_feature_id feature_key,
              { key := feature_key, id := space.calculate_feature_id feature_key : Feature})]).find?
              (fun q => q.1 = space.calculate_feature_id feature_key))
            = some (space.calculate_feature_id feature_key,
                { key := feature_key, id := space.calculate_feature_id feature_key }) := by
          rw [find?_append_of_none _ _ _ hmem]
          rw [List.find?_cons_of_pos]
          simp
        simp [hfind]
  have hname2 : create_or_get_feature_name (create_or_get_feature_sp c feature_key space).2
      feature_key space_name = create_or_get_feature_sp c feature_key space := by
    unfold create_or_get_feature_name
    rw [create_or_get_feature_sp_spaces, h]
    exact hrepeat
  have hname1 : create_or_get_feature_name c feature_key space_name
      = create_or_get_feature_sp c feature_key space := by
    unfold create_or_get_feature_name
    rw [h]
  exact ⟨hrepeat, hname2, hname1⟩

/-- C10 witness: a concrete cache with one registered space satisfies the
naming hypothesis and the idempotence conclusion. -/
theorem create_or_get_feature_idempotent_witness :
    witnessCache.spaces.find? (fun p => p.1 = "A") = some ("A", witnessSpace)
  ∧ (create_or_get_feature_sp (create_or_get_feature_sp witnessCache "111" witnessSpace).2
        "111" witnessSpace
      = create_or_get_feature_sp witnessCache "111" witnessSpace
    ∧ create_or_get_feature_name (create_or_get_feature_sp witnessCache "111" witnessSpace).2
        "111" "A"
      = create_or_get_feature_sp witnessCache "111" witnessSpace
    ∧ create_or_get_feature_name witnessCache "111" "A"
      = create_or_get_feature_sp witnessCache "111" witnessSpace) :=
  ⟨rfl, create_or_get_feature_idempotent witnessCache "111" "A" witnessSpace rfl⟩

end RedGiant
